import Mathlib

/-!
Verification development for the torch-mlir `AdjustCallingConventions` pass
(lib/Dialect/Torch/Transforms/AdjustCallingConventions.cpp).

The pass rewrites function signatures, call sites and return statements to
eliminate `!torch.none` and `!torch.tuple` signature elements and to resolve
`torch.type_bound` argument annotations.  We embed the types and operations
the pass inspects, and the pass's own rewriting logic, as executable Lean
functions, and prove the specification's claims about them.
-/

namespace AdjustCallingConventions

/-- The fragment of the Torch dialect type system the pass inspects:
`!torch.none`, non-value-semantic tensors (`NonValueTensorType`),
value-semantic tensors (`ValueTensorType`), tuples, `!torch.int`, and all
remaining types collapsed into an opaque `prim` constructor.  Tensor
constructors carry a numeric identifier standing for their static shape and
dtype information. -/
inductive TorchType where
  | noneType : TorchType
  | nonValueTensor (id : Nat) : TorchType
  | valueTensor (id : Nat) : TorchType
  | tuple (ts : List TorchType) : TorchType
  | int : TorchType
  | prim (id : Nat) : TorchType
deriving Repr

/-- `isa<Torch::NoneType>(t)`. -/
def TorchType.isNone : TorchType → Bool
  | .noneType => true
  | _ => false

/-- `isa<Torch::TupleType>(t)`. -/
def TorchType.isTuple : TorchType → Bool
  | .tuple _ => true
  | _ => false

/-- `isa<NonValueTensorType>(t)`. -/
def TorchType.isNonValueTensor : TorchType → Bool
  | .nonValueTensor _ => true
  | _ => false

/-- `isa<ValueTensorType>(t)` on a non-null type. -/
def TorchType.isValueTensor : TorchType → Bool
  | .valueTensor _ => true
  | _ => false

/-- The LLVM assertion message for `isa<>` applied to a null `Type`.  When
no `torch.type_bound` attribute is present, line 59 computes
`Type bound = Type()` (null) and line 60 calls `isa<ValueTensorType>` on
it, which asserts in assert-enabled builds and is undefined behavior
otherwise — a crash, not a clean `false`. -/
def nullIsaMsg : String := "isa<> used on a null type"

/-- `isa<ValueTensorType>(bound)` on the possibly-null `Type` of line 60
(`Option.none` models the null `Type()`): on a null type the call does not
return — it asserts — modelled as a distinguished error; on a non-null
type it returns the classification. -/
def isaValueTensorType : Option TorchType → Except String Bool
  | Option.none => .error nullIsaMsg
  | some t => .ok t.isValueTensor

/-- SSA values as the pass observes and creates them.  Each constructor
records the value's type and, where relevant, the operation defining it:
block arguments, `builtin.unrealized_conversion_cast` results (the
framework's materialization artifacts, always single-operand here),
`torch.constant.none`, `torch.constant.int`, `torch.prim.TupleConstruct`,
`torch.prim.TupleIndex`, the result of `copyTensorToType`, and results of a
`func.call` identified by a call identifier and a result index. -/
inductive Value where
  | arg (t : TorchType) (id : Nat) : Value
  | unrealizedCast (t : TorchType) (src : Value) : Value
  | constantNone : Value
  | constantInt (n : Nat) : Value
  | primTupleConstruct (t : TorchType) (args : List Value) : Value
  | primTupleIndex (t : TorchType) (tup : Value) (idx : Value) : Value
  | copy (t : TorchType) (src : Value) : Value
  | callResult (t : TorchType) (callId : Nat) (idx : Nat) : Value
deriving Repr

/-- `v.getType()`. -/
def Value.type : Value → TorchType
  | .arg t _ => t
  | .unrealizedCast t _ => t
  | .constantNone => .noneType
  | .constantInt _ => .int
  | .primTupleConstruct t _ => t
  | .primTupleIndex t _ _ => t
  | .copy t _ => t
  | .callResult t _ _ => t

/-- Modelled from the spec: `copyTensorToType` (defined in the Torch dialect
utilities, outside the shown pass file) produces a copy/cast operation
converting the input value to the requested tensor type; the spec only
relies on it yielding a value of the bound type that wraps the operand. -/
def copyTensorToType (t : TorchType) (v : Value) : Value :=
  Value.copy t v

/-- The diagnostic message issued by both rewriters for an unsupported
type bound. -/
def unsupportedBoundMsg : String :=
  "unimplemented: preserving aliasing for non-value-semantic type bounds"

/-! ## The type converter

`adjustCallingConventions` registers three conversions, tried most-recent
first: `Torch::NoneType` converts to zero types, `Torch::TupleType` converts
to its contained types (one level, not recursively), and every other type
converts to itself. -/

/-- One type's image under the registered type conversions. -/
def convertType : TorchType → List TorchType
  | .noneType => []
  | .tuple ts => ts
  | t => [t]

/-- `TypeConverter::convertTypes` over a type list. -/
def convertTypes (ts : List TorchType) : List TorchType :=
  ts.flatMap convertType

/-! ## Functions -/

/-- A `func.FuncOp` as the pass inspects it: a name, the argument list
(each argument type paired with its optional `torch.type_bound` attribute
value, mirroring `getArgAttrOfType<TypeAttr>(i, "torch.type_bound")`), and
the declared result types. -/
structure FuncOp where
  name : String
  args : List (TorchType × Option TorchType)
  resultTypes : List TorchType
deriving Repr

/-- Argument types of a function, `func.getArgumentTypes()`. -/
def FuncOp.argTypes (f : FuncOp) : List TorchType :=
  f.args.map Prod.fst

/-- The argument loop of `AdjustCallingConventionForFunc::matchAndRewrite`:
walk the argument list in order building the converted input types.  For a
`NonValueTensorType` argument the bound is the attribute's value or the
null `Type()` when the attribute is absent; `isa<ValueTensorType>` on that
bound crashes on the null type (missing attribute) and otherwise fails
with the unsupported-bound diagnostic unless the bound is value-semantic,
in which case the argument contributes the bound (the fallback to the
declared type in the source is dead code).  A `Torch::NoneType` argument
contributes nothing; anything else passes through. -/
def convertFuncArgs :
    List (TorchType × Option TorchType) → Except String (List TorchType)
  | [] => .ok []
  | (t, typeBoundAttr) :: rest =>
    if t.isNonValueTensor then do
      let bound : Option TorchType := typeBoundAttr
      let isVT ← isaValueTensorType bound
      if isVT then
        let tail ← convertFuncArgs rest
        .ok ((typeBoundAttr.getD t) :: tail)
      else
        .error unsupportedBoundMsg
    else if t.isNone then
      convertFuncArgs rest
    else do
      let tail ← convertFuncArgs rest
      .ok (t :: tail)

/-- The result loop of `AdjustCallingConventionForFunc::matchAndRewrite`:
`Torch::NoneType` results are dropped, `Torch::TupleType` results are
replaced by their contained types, everything else passes through. -/
def convertFuncResultTypes : List TorchType → List TorchType
  | [] => []
  | .noneType :: rest => convertFuncResultTypes rest
  | .tuple ts :: rest => ts ++ convertFuncResultTypes rest
  | t :: rest => t :: convertFuncResultTypes rest

/-- `AdjustCallingConventionForFunc::matchAndRewrite`: on success the
function gets the converted argument types (all `torch.type_bound`
attributes removed) and the converted result types. -/
def matchAndRewriteFunc (func : FuncOp) : Except String FuncOp := do
  let newArgTypes ← convertFuncArgs func.args
  .ok { name := func.name
        args := newArgTypes.map (fun t => (t, Option.none))
        resultTypes := convertFuncResultTypes func.resultTypes }

/-! ## Calls -/

/-- The type-bound table: from (function name, argument index) to the bound
type recorded for that argument (a type alias in the source). -/
abbrev TypeBoundMap := List ((String × Nat) × TorchType)

/-- `typeBoundMap.find({name, index})`. -/
def TypeBoundMap.find (m : TypeBoundMap) (key : String × Nat) :
    Option TorchType :=
  (List.find? (fun e => e.fst = key) m).map Prod.snd

/-- A `func.CallOp`: callee name, operands, declared result types. -/
structure CallOp where
  callee : String
  operands : List Value
  resultTypes : List TorchType
deriving Repr

/-- The operand loop of `AdjustCallingConventionForCall::matchAndRewrite`,
carrying the running operand index: a `Torch::NoneType` operand is dropped;
an operand whose (callee, index) has a table entry is wrapped via
`copyTensorToType` when the entry is a `ValueTensorType` and otherwise
fails with the unsupported-bound diagnostic; an operand with no entry
passes through. -/
def newCallOperands (typeBoundMap : TypeBoundMap) (callee : String) :
    Nat → List Value → Except String (List Value)
  | _, [] => .ok []
  | i, operand :: rest =>
    if (operand.type).isNone then
      newCallOperands typeBoundMap callee (i + 1) rest
    else
      match typeBoundMap.find (callee, i) with
      | some (.valueTensor k) => do
          let tail ← newCallOperands typeBoundMap callee (i + 1) rest
          .ok (copyTensorToType (.valueTensor k) operand :: tail)
      | some _ => .error unsupportedBoundMsg
      | Option.none => do
          let tail ← newCallOperands typeBoundMap callee (i + 1) rest
          .ok (operand :: tail)

/-- The result-reconstruction loop of
`AdjustCallingConventionForCall::matchAndRewrite`: walk the original result
types keeping a cursor `newOpResultIdx` into the new call's results.  A
`Torch::NoneType` result synthesizes a fresh `torch.constant.none`; a
`Torch::TupleType` result synthesizes a `torch.prim.TupleConstruct` whose
operands are `newCall.getResults()` — all of the new call's results — with
the cursor left unchanged; any other result takes
`newCall.getResult(newOpResultIdx++)`.  `Option.none` models the
out-of-bounds `getResult` assertion failing. -/
def reconstructResults (newCallResults : List Value) :
    Nat → List TorchType → Option (List Value)
  | _, [] => some ([] : List Value)
  | idx, TorchType.noneType :: rest =>
    (reconstructResults newCallResults idx rest).map
      (fun tail => Value.constantNone :: tail)
  | idx, TorchType.tuple ts :: rest =>
    (reconstructResults newCallResults idx rest).map
      (fun tail =>
        Value.primTupleConstruct (.tuple ts) newCallResults :: tail)
  | idx, _t :: rest => do
    let r ← newCallResults[idx]?
    let tail ← reconstructResults newCallResults (idx + 1) rest
    some (r :: tail)

/-- The result values of a freshly created `func.CallOp` with the given
identifier and result types. -/
def callResults (callId : Nat) (resultTypes : List TorchType) : List Value :=
  (resultTypes.enum).map (fun p => Value.callResult p.snd callId p.fst)

/-- `AdjustCallingConventionForCall::matchAndRewrite`: convert the result
types, build the new operand list, create the new call (identified by
`newCallId`), and reconstruct one replacement value per original result.
Returns the new call and the replacement values handed to
`rewriter.replaceOp`. -/
def matchAndRewriteCall (typeBoundMap : TypeBoundMap) (call : CallOp)
    (newCallId : Nat) : Except String (CallOp × List Value) := do
  let convertedResults := convertTypes call.resultTypes
  let newOperands ← newCallOperands typeBoundMap call.callee 0 call.operands
  let newCall : CallOp :=
    { callee := call.callee
      operands := newOperands
      resultTypes := convertedResults }
  match reconstructResults (callResults newCallId convertedResults) 0
      call.resultTypes with
  | some newResults => .ok (newCall, newResults)
  | Option.none => .error "assertion failure: call result index out of range"

/-! ## Returns -/

/-- The `torch.prim.TupleIndex` operations created for one decomposed tuple:
for each contained type, a `torch.constant.int` index and an extraction at
that index, indices `0, 1, ...` in order. -/
def tupleIndexOps (operand : Value) (ts : List TorchType) : List Value :=
  (ts.enum).map
    (fun p => Value.primTupleIndex p.snd operand (Value.constantInt p.fst))

/-- The operand loop of `AdjustCallingConventionForReturn::matchAndRewrite`
over the adaptor's operand groups (`OneToNOpAdaptor`: each original operand
is remapped to a group of zero, one or many values).  A singleton group is
dropped when its value is `Torch::NoneType`-typed and kept otherwise; a
group of more than one value whose first value is defined by a
`builtin.unrealized_conversion_cast` over a tuple-typed operand is replaced
by indexed extractions from that operand, and any other multi-value group
is appended unchanged; an empty group contributes nothing. -/
def rewriteReturnOperands : List (List Value) → List Value
  | [] => []
  | vals :: rest =>
    match vals with
    | [v] =>
      if (v.type).isNone then rewriteReturnOperands rest
      else v :: rewriteReturnOperands rest
    | v0 :: v1 :: vs =>
      match v0 with
      | .unrealizedCast _ operand =>
        match operand.type with
        | .tuple ts => tupleIndexOps operand ts ++ rewriteReturnOperands rest
        | _ => (v0 :: v1 :: vs) ++ rewriteReturnOperands rest
      | _ => (v0 :: v1 :: vs) ++ rewriteReturnOperands rest
    | [] => rewriteReturnOperands rest

/-! ## The conversion target and the driver -/

/-- The dynamic legality predicate `adjustCallingConventions` installs for
`func.FuncOp`: illegal when any argument still carries a `torch.type_bound`
attribute or has `Torch::NoneType`, or any result type is
`Torch::NoneType`; legal otherwise.  (Tuple types are not examined.) -/
def funcOpDynamicallyLegal (func : FuncOp) : Bool :=
  func.args.all
      (fun a => a.snd.isNone && !(a.fst.isNone)) &&
    func.resultTypes.all (fun t => !t.isNone)

/-- Operations of a function body the conversion target distinguishes:
direct calls, indirect calls (`func.CallIndirectOp`), returns (carrying the
adaptor's operand groups), and all other operations (legal by default under
partial conversion). -/
inductive Op where
  | call (c : CallOp) : Op
  | callIndirect : Op
  | ret (groups : List (List Value)) : Op
  | other (id : Nat) : Op
deriving Repr

/-- A function definition: its signature-level data and its body. -/
structure FuncDef where
  func : FuncOp
  body : List Op
deriving Repr

/-- The dynamic legality predicate for `func.CallOp` and `func.ReturnOp`:
an operation is legal exactly when it is not in the pre-collected set
`opsInOriginalProgram` (operation identity modelled by numeric
identifiers). -/
def callReturnDynamicallyLegal (opsInOriginalProgram : List Nat)
    (opId : Nat) : Bool :=
  !(opsInOriginalProgram.contains opId)

/-- Modelled from the spec: the dialect-conversion driver
(`applyPartialConversion`, an external collaborator) applies the registered
pattern to every original call and return (all of them are illegal, being
in the pre-collected set) and fails on `func.CallIndirectOp`, which is
marked illegal and has no pattern.  Other operations are left untouched.
`fresh` numbers the newly created calls. -/
def convertBody (typeBoundMap : TypeBoundMap) :
    Nat → List Op → Except String (List Op)
  | _, [] => .ok []
  | _, Op.callIndirect :: _ =>
    .error "failed to legalize operation func.call_indirect"
  | fresh, Op.call c :: rest => do
    let r ← matchAndRewriteCall typeBoundMap c fresh
    let tail ← convertBody typeBoundMap (fresh + 1) rest
    .ok (Op.call r.fst :: tail)
  | fresh, Op.ret groups :: rest => do
    let tail ← convertBody typeBoundMap fresh rest
    .ok (Op.ret ((rewriteReturnOperands groups).map (fun v => [v])) :: tail)
  | fresh, Op.other k :: rest => do
    let tail ← convertBody typeBoundMap fresh rest
    .ok (Op.other k :: tail)

/-- `adjustCallingConventions` on one function: a legal function is skipped
by the conversion (its signature pattern never fires); an illegal one has
`AdjustCallingConventionForFunc` applied; calls and returns in the body are
converted unconditionally. -/
def adjustCallingConventionsFunc (typeBoundMap : TypeBoundMap)
    (fd : FuncDef) : Except String FuncDef := do
  let newFunc ←
    if funcOpDynamicallyLegal fd.func then .ok fd.func
    else matchAndRewriteFunc fd.func
  let newBody ← convertBody typeBoundMap 0 fd.body
  .ok { func := newFunc, body := newBody }

/-- The whole-module pre-pass of `runOnOperation`: for every function and
every argument index with a `torch.type_bound` attribute, record
(function name, index) ↦ bound. -/
def buildTypeBoundMap (funcs : List FuncOp) : TypeBoundMap :=
  funcs.flatMap
    (fun f =>
      (f.args.enum).filterMap
        (fun p => (p.snd.snd).map (fun bound => ((f.name, p.fst), bound))))

/-- The per-function loop of `runOnOperation`: process functions in order,
signalling pass failure on the first function whose conversion fails. -/
def processFuncs (typeBoundMap : TypeBoundMap) :
    List FuncDef → Except String (List FuncDef)
  | [] => .ok []
  | fd :: rest => do
    let fd' ← adjustCallingConventionsFunc typeBoundMap fd
    let rest' ← processFuncs typeBoundMap rest
    .ok (fd' :: rest')

/-- `AdjustCallingConventionsPass::runOnOperation`: build the type-bound
table over the whole module, then adjust every function. -/
def runOnOperation (funcs : List FuncDef) : Except String (List FuncDef) :=
  processFuncs (buildTypeBoundMap (funcs.map FuncDef.func)) funcs

/-! ## The specification's descriptions, for comparison

The following definitions transcribe what the specification's claims say
the pass does, where that differs from (or is to be compared against) the
code above. -/

/-- The result reconstruction as the specification describes it: a
tuple-typed original result consumes exactly the next `N` new-call results
(`N` = number of contained types) and the cursor advances past them; a
none-typed result synthesizes a constant none without consuming anything;
any other result takes the next single new-call result. -/
def reconstructResultsClaimed (newCallResults : List Value) :
    Nat → List TorchType → Option (List Value)
  | _, [] => some ([] : List Value)
  | idx, TorchType.noneType :: rest =>
    (reconstructResultsClaimed newCallResults idx rest).map
      (fun tail => Value.constantNone :: tail)
  | idx, TorchType.tuple ts :: rest =>
    let taken := (newCallResults.drop idx).take ts.length
    if taken.length = ts.length then
      (reconstructResultsClaimed newCallResults (idx + ts.length) rest).map
        (fun tail => Value.primTupleConstruct (.tuple ts) taken :: tail)
    else Option.none
  | idx, _t :: rest => do
    let r ← newCallResults[idx]?
    let tail ← reconstructResultsClaimed newCallResults (idx + 1) rest
    some (r :: tail)

/-- The function legality predicate as the specification describes it: no
remaining annotations and no none-typed *or tuple-typed* elements anywhere
in the signature. -/
def funcOpLegalClaimed (func : FuncOp) : Bool :=
  func.args.all
      (fun a => a.snd.isNone && !(a.fst.isNone) && !(a.fst.isTuple)) &&
    func.resultTypes.all (fun t => !t.isNone && !t.isTuple)

/-- Whether an operand's table entry allows the call-site rewrite to
proceed at this position: the operand is none-typed (dropped before the
lookup), or there is no entry, or the entry is value-semantic. -/
def operandEntryOk (typeBoundMap : TypeBoundMap) (callee : String) (i : Nat)
    (v : Value) : Bool :=
  (v.type).isNone || (typeBoundMap.find (callee, i)).isNone ||
    ((typeBoundMap.find (callee, i)).map TorchType.isValueTensor).getD false

/-- The specification's description of one call operand's fate, given its
original index: a none-typed operand is dropped; a position with a
value-semantic table entry is wrapped in a copy/cast to the bound type;
a position with no entry passes through unchanged. -/
def processOperandClaimed (typeBoundMap : TypeBoundMap) (callee : String)
    (p : Nat × Value) : Option Value :=
  if ((p.snd).type).isNone then Option.none
  else
    match typeBoundMap.find (callee, p.fst) with
    | some (TorchType.valueTensor k) =>
      some (copyTensorToType (.valueTensor k) p.snd)
    | _ => some p.snd

/-- Whether an argument slot lets the signature rewrite succeed: either it
is not a non-value-semantic tensor, or its bound is present and
value-semantic. -/
def argSlotOk (p : TorchType × Option TorchType) : Bool :=
  !(p.fst).isNonValueTensor || ((p.snd).map TorchType.isValueTensor).getD false

/-- The specification's description of one argument slot's image: a
none-typed argument produces zero new arguments, a non-value-semantic
tensor argument is retyped to its bound, anything else passes through. -/
def argSlotClaimed (p : TorchType × Option TorchType) : List TorchType :=
  match p.fst with
  | TorchType.noneType => []
  | TorchType.nonValueTensor _ => ((p.snd).map (fun b => [b])).getD []
  | t => [t]

/-- The specification's description of one result type's image: none-typed
results are dropped, tuple-typed results are replaced by their contained
types in order, anything else passes through. -/
def resultSlotClaimed : TorchType → List TorchType
  | TorchType.noneType => []
  | TorchType.tuple ts => ts
  | t => [t]

/-- The indexed extractions the specification describes for a decomposed
tuple: one extraction per contained type, at indices `0 .. N-1` in order,
each typed at the corresponding contained type. -/
def tupleIndexListClaimed (operand : Value) (ts : List TorchType) :
    List Value :=
  (List.range ts.length).map
    (fun i =>
      Value.primTupleIndex (ts.getD i TorchType.noneType) operand
        (Value.constantInt i))

/-- The specification's description of one return operand group's
contribution: an empty group contributes nothing; a singleton group
contributes its value unless none-typed; a multi-value group headed by a
placeholder cast over a tuple-typed value contributes the indexed
extractions of that tuple; any other multi-value group passes through. -/
def returnGroupClaimed : List Value → List Value
  | [] => []
  | [v] => if (v.type).isNone then [] else [v]
  | v0 :: v1 :: vs =>
    match v0 with
    | Value.unrealizedCast _ operand =>
      match operand.type with
      | TorchType.tuple ts => tupleIndexListClaimed operand ts
      | _ => v0 :: v1 :: vs
    | _ => v0 :: v1 :: vs

/-! ## Concrete instances used by witnesses and counterexamples -/

/-- A call whose original result list mixes a tuple with a following tensor:
the input on which the code's tuple reconstruction diverges from the
specification. -/
def mixedResultsCall : CallOp :=
  { callee := "f"
    operands := []
    resultTypes := [.tuple [.valueTensor 0, .valueTensor 1], .valueTensor 2] }

/-- A call whose only original result is a tuple of two tensors. -/
def singleTupleCall : CallOp :=
  { callee := "g"
    operands := []
    resultTypes := [.tuple [.valueTensor 0, .valueTensor 1]] }

/-- A function whose argument is a plain (non-tensor) type carrying a
`torch.type_bound` annotation that is not value-semantic. -/
def plainArgBadBoundFunc : FuncOp :=
  { name := "g"
    args := [(.prim 7, some (.nonValueTensor 3))]
    resultTypes := [] }

/-- A function with a non-value-semantic tensor argument whose annotation
is itself a non-value-semantic tensor type. -/
def badBoundFunc : FuncOp :=
  { name := "b"
    args := [(.nonValueTensor 0, some (.nonValueTensor 1))]
    resultTypes := [] }

/-- A function with a non-value-semantic tensor argument and no
`torch.type_bound` annotation at all. -/
def missingBoundFunc : FuncOp :=
  { name := "m"
    args := [(.nonValueTensor 0, Option.none)]
    resultTypes := [] }

/-- An annotation-free, none-free function returning a tuple. -/
def tupleResultFunc : FuncOp :=
  { name := "h"
    args := [(.prim 0, Option.none)]
    resultTypes := [.tuple [.valueTensor 0, .valueTensor 1]] }

/-- An already-converted function: no annotations, no nones, no tuples. -/
def legalPlainFunc : FuncOp :=
  { name := "p"
    args := [(.int, Option.none)]
    resultTypes := [.int] }

/-- A function exercising every argument and result case of the signature
conversion. -/
def annotatedFunc : FuncOp :=
  { name := "k"
    args := [(.nonValueTensor 0, some (.valueTensor 4)), (.noneType, Option.none),
             (.int, Option.none)]
    resultTypes := [.noneType, .tuple [.valueTensor 1, .valueTensor 2], .int] }

/-- A type-bound table with value-semantic entries at positions 0 and 2
of "f". -/
def sampleTypeBoundMap : TypeBoundMap :=
  [(("f", 0), .valueTensor 5), (("f", 2), .valueTensor 9)]

/-- Operands exercising dropping, wrapping and pass-through. -/
def sampleOperands : List Value :=
  [.arg (.nonValueTensor 1) 0, .arg .noneType 1, .arg (.nonValueTensor 2) 2,
   .arg .int 3]

/-- A call needing no adjustment: no none operands, no table entries, no
none or tuple results. -/
def plainCall : CallOp :=
  { callee := "p"
    operands := [.arg .int 0]
    resultTypes := [.valueTensor 3] }

/-- A call with a none-typed original result. -/
def noneResultCall : CallOp :=
  { callee := "f"
    operands := []
    resultTypes := [.noneType, .valueTensor 0] }

/-- A function body containing an indirect call. -/
def indirectBodyDef : FuncDef :=
  { func := { name := "q", args := [], resultTypes := [] }
    body := [Op.callIndirect] }

/-! ## Helper lemmas -/

theorem convertFuncResultTypes_eq_flatMap (ts : List TorchType) :
    convertFuncResultTypes ts = ts.flatMap resultSlotClaimed := by
  induction ts with
  | nil => rfl
  | cons t rest ih =>
    cases t <;> simp [convertFuncResultTypes, resultSlotClaimed, ih]

theorem tupleIndexOps_eq_claimed (operand : Value) (ts : List TorchType) :
    tupleIndexOps operand ts = tupleIndexListClaimed operand ts := by
  apply List.ext_getElem
  · simp [tupleIndexOps, tupleIndexListClaimed]
  · intro i h1 h2
    simp only [tupleIndexOps, tupleIndexListClaimed, List.getElem_map,
      List.getElem_enum, List.getElem_range]
    congr 1
    rw [List.getD_eq_getElem]

theorem error_bind {α β : Type} (e : String) (f : α → Except String β) :
    (Except.error e : Except String α) >>= f = Except.error e := rfl

theorem ok_bind {α β : Type} (a : α) (f : α → Except String β) :
    (Except.ok a : Except String α) >>= f = f a := rfl

theorem convertFuncArgs_error_of_present_bad
    (args : List (TorchType × Option TorchType)) (t b : TorchType)
    (hmem : (t, some b) ∈ args) (ht : t.isNonValueTensor = true)
    (hb : b.isValueTensor = false)
    (hpresent : ∀ p ∈ args,
      (p.fst).isNonValueTensor = true → (p.snd).isSome = true) :
    convertFuncArgs args = .error unsupportedBoundMsg := by
  induction args with
  | nil => cases hmem
  | cons hd rest ih =>
    obtain ⟨t0, a0⟩ := hd
    have hpr : ∀ p ∈ rest,
        (p.fst).isNonValueTensor = true → (p.snd).isSome = true :=
      fun p hp => hpresent p (List.mem_cons_of_mem _ hp)
    rcases List.mem_cons.mp hmem with heq | hmem'
    · injection heq with h1 h2
      subst h1; subst h2
      simp [convertFuncArgs, ht, isaValueTensorType, hb, ok_bind]
    · cases h0 : t0.isNonValueTensor with
      | true =>
        have hsome := hpresent (t0, a0) (List.mem_cons_self _ _) h0
        rcases a0 with _ | b0
        · simp at hsome
        · cases h1 : b0.isValueTensor with
          | true =>
            simp [convertFuncArgs, h0, isaValueTensorType, h1,
              ih hmem' hpr, ok_bind, error_bind]
          | false => simp [convertFuncArgs, h0, isaValueTensorType, h1, ok_bind]
      | false =>
        cases h2 : t0.isNone with
        | true => simp [convertFuncArgs, h0, h2, ih hmem' hpr]
        | false => simp [convertFuncArgs, h0, h2, ih hmem' hpr, error_bind]

theorem convertFuncArgs_not_ok_of_bad
    (args : List (TorchType × Option TorchType)) (t : TorchType)
    (a : Option TorchType) (hmem : (t, a) ∈ args)
    (ht : t.isNonValueTensor = true)
    (ha : (a.map TorchType.isValueTensor).getD false = false) :
    ∀ out, convertFuncArgs args ≠ .ok out := by
  induction args with
  | nil => cases hmem
  | cons hd rest ih =>
    intro out
    obtain ⟨t0, a0⟩ := hd
    rcases List.mem_cons.mp hmem with heq | hmem'
    · injection heq with h1 h2
      subst h1; subst h2
      rcases a with _ | b
      · simp [convertFuncArgs, ht, isaValueTensorType, error_bind]
      · have hb : b.isValueTensor = false := by simpa using ha
        simp [convertFuncArgs, ht, isaValueTensorType, hb, ok_bind]
    · cases h0 : t0.isNonValueTensor with
      | true =>
        rcases a0 with _ | b0
        · simp [convertFuncArgs, h0, isaValueTensorType, error_bind]
        · cases h1 : b0.isValueTensor with
          | true =>
            rcases hr : convertFuncArgs rest with e | l
            · simp [convertFuncArgs, h0, isaValueTensorType, h1, hr,
                ok_bind, error_bind]
            · exact absurd hr (ih hmem' l)
          | false =>
            simp [convertFuncArgs, h0, isaValueTensorType, h1, ok_bind]
      | false =>
        cases h2 : t0.isNone with
        | true =>
          simp only [convertFuncArgs, h0, Bool.false_eq_true, if_false, h2,
            if_true]
          exact ih hmem' out
        | false =>
          rcases hr : convertFuncArgs rest with e | l
          · simp [convertFuncArgs, h0, h2, hr, error_bind]
          · exact absurd hr (ih hmem' l)

theorem convertFuncArgs_ok_of_ok (args : List (TorchType × Option TorchType))
    (h : ∀ p ∈ args, argSlotOk p = true) :
    convertFuncArgs args = .ok (args.flatMap argSlotClaimed) := by
  induction args with
  | nil => rfl
  | cons hd rest ih =>
    obtain ⟨t0, a0⟩ := hd
    have hhd := h (t0, a0) (List.mem_cons_self _ _)
    have hrest : ∀ p ∈ rest, argSlotOk p = true :=
      fun p hp => h p (List.mem_cons_of_mem _ hp)
    cases t0 with
    | noneType =>
      simp [convertFuncArgs, TorchType.isNonValueTensor, TorchType.isNone,
        argSlotClaimed, ih hrest]
    | nonValueTensor k =>
      simp only [argSlotOk, TorchType.isNonValueTensor, Bool.not_true,
        Bool.false_or] at hhd
      cases a0 with
      | none => simp at hhd
      | some b =>
        have hb : b.isValueTensor = true := by simpa using hhd
        cases b with
        | valueTensor m =>
          simp [convertFuncArgs, TorchType.isNonValueTensor,
            isaValueTensorType, TorchType.isValueTensor, argSlotClaimed,
            ih hrest, ok_bind]
        | noneType => simp [TorchType.isValueTensor] at hb
        | nonValueTensor m => simp [TorchType.isValueTensor] at hb
        | tuple ts => simp [TorchType.isValueTensor] at hb
        | int => simp [TorchType.isValueTensor] at hb
        | prim m => simp [TorchType.isValueTensor] at hb
    | valueTensor k =>
      simp [convertFuncArgs, TorchType.isNonValueTensor, TorchType.isNone,
        argSlotClaimed, ih hrest, ok_bind]
    | tuple ts =>
      simp [convertFuncArgs, TorchType.isNonValueTensor, TorchType.isNone,
        argSlotClaimed, ih hrest, ok_bind]
    | int =>
      simp [convertFuncArgs, TorchType.isNonValueTensor, TorchType.isNone,
        argSlotClaimed, ih hrest, ok_bind]
    | prim k =>
      simp [convertFuncArgs, TorchType.isNonValueTensor, TorchType.isNone,
        argSlotClaimed, ih hrest, ok_bind]

theorem matchAndRewriteFunc_error (f : FuncOp) (e : String)
    (h : convertFuncArgs f.args = .error e) :
    matchAndRewriteFunc f = .error e := by
  simp [matchAndRewriteFunc, h, error_bind]

theorem matchAndRewriteFunc_not_ok (f : FuncOp)
    (h : ∀ out, convertFuncArgs f.args ≠ .ok out) :
    ∀ out, matchAndRewriteFunc f ≠ .ok out := by
  intro out
  unfold matchAndRewriteFunc
  rcases hc : convertFuncArgs f.args with e | l
  · simp [hc, error_bind]
  · exact absurd hc (h l)

theorem funcOp_illegal_of_attr (f : FuncOp) (t : TorchType) (b : TorchType)
    (hmem : (t, some b) ∈ f.args) : funcOpDynamicallyLegal f = false := by
  have hall : f.args.all (fun a => a.snd.isNone && !(a.fst.isNone)) = false := by
    rw [List.all_eq_false]
    exact ⟨(t, some b), hmem, by simp⟩
  simp [funcOpDynamicallyLegal, hall]

theorem newCallOperands_error_of_bad (typeBoundMap : TypeBoundMap)
    (callee : String) (ops : List Value) (v : Value) (b : TorchType)
    (hnone : (v.type).isNone = false) (hb : b.isValueTensor = false)
    (start j : Nat) (hv : ops[j]? = some v)
    (hfind : typeBoundMap.find (callee, start + j) = some b) :
    newCallOperands typeBoundMap callee start ops =
      .error unsupportedBoundMsg := by
  induction ops generalizing start j with
  | nil => simp at hv
  | cons w rest ih =>
    cases j with
    | zero =>
      simp only [List.getElem?_cons_zero, Option.some.injEq] at hv
      subst hv
      rw [Nat.add_zero] at hfind
      cases b with
      | valueTensor m => simp [TorchType.isValueTensor] at hb
      | noneType => simp [newCallOperands, hnone, hfind]
      | nonValueTensor m => simp [newCallOperands, hnone, hfind]
      | tuple ts => simp [newCallOperands, hnone, hfind]
      | int => simp [newCallOperands, hnone, hfind]
      | prim m => simp [newCallOperands, hnone, hfind]
    | succ j' =>
      have hv' : rest[j']? = some v := by simpa using hv
      have hfind' : typeBoundMap.find (callee, start + 1 + j') = some b := by
        rw [Nat.add_right_comm]
        exact hfind
      have htail := ih (start + 1) j' hv' hfind'
      cases hw : (w.type).isNone with
      | true => simp [newCallOperands, hw, htail]
      | false =>
        rcases hfw : typeBoundMap.find (callee, start) with _ | bb
        · simp [newCallOperands, hw, hfw, htail, error_bind]
        · cases bb <;> simp [newCallOperands, hw, hfw, htail, error_bind]

theorem newCallOperands_ok (typeBoundMap : TypeBoundMap) (callee : String)
    (ops : List Value) (start : Nat)
    (h : ∀ i (hi : i < ops.length),
        operandEntryOk typeBoundMap callee (start + i) ops[i] = true) :
    newCallOperands typeBoundMap callee start ops =
      .ok ((ops.enumFrom start).filterMap
        (processOperandClaimed typeBoundMap callee)) := by
  induction ops generalizing start with
  | nil => rfl
  | cons w rest ih =>
    have hhd : operandEntryOk typeBoundMap callee start w = true := by
      have := h 0 (by simp)
      simpa using this
    have hrest : ∀ i (hi : i < rest.length),
        operandEntryOk typeBoundMap callee (start + 1 + i) rest[i] = true := by
      intro i hi
      have hstep := h (i + 1) (by simpa using Nat.succ_lt_succ hi)
      rw [List.getElem_cons_succ] at hstep
      rw [show start + (i + 1) = start + 1 + i by omega] at hstep
      exact hstep
    cases hw : (w.type).isNone with
    | true =>
      simp only [newCallOperands, hw, if_true]
      rw [ih (start + 1) hrest]
      simp only [List.enumFrom, List.filterMap_cons, processOperandClaimed, hw]
      rfl
    | false =>
      rw [operandEntryOk, hw] at hhd
      simp only [Bool.false_or, Bool.or_eq_true] at hhd
      rcases hfw : typeBoundMap.find (callee, start) with _ | bb
      · simp only [newCallOperands, hw, Bool.false_eq_true, if_false, hfw]
        rw [ih (start + 1) hrest]
        simp only [ok_bind, List.enumFrom, List.filterMap_cons,
          processOperandClaimed, hw, hfw]
        rfl
      · rw [hfw] at hhd
        simp at hhd
        cases bb with
        | valueTensor k =>
          simp only [newCallOperands, hw, Bool.false_eq_true, if_false, hfw]
          rw [ih (start + 1) hrest]
          simp only [ok_bind, List.enumFrom, List.filterMap_cons,
            processOperandClaimed, hw, hfw]
          rfl
        | noneType => simp [TorchType.isValueTensor] at hhd
        | nonValueTensor m => simp [TorchType.isValueTensor] at hhd
        | tuple ts => simp [TorchType.isValueTensor] at hhd
        | int => simp [TorchType.isValueTensor] at hhd
        | prim m => simp [TorchType.isValueTensor] at hhd

theorem newCallOperands_id (typeBoundMap : TypeBoundMap) (callee : String)
    (ops : List Value) (start : Nat)
    (hops : ∀ v ∈ ops, (v.type).isNone = false)
    (hent : ∀ i (hi : i < ops.length),
        (typeBoundMap.find (callee, start + i)).isNone = true) :
    newCallOperands typeBoundMap callee start ops = .ok ops := by
  induction ops generalizing start with
  | nil => rfl
  | cons w rest ih =>
    have hw : (w.type).isNone = false := hops w (List.mem_cons_self _ _)
    have hfw : typeBoundMap.find (callee, start) = Option.none := by
      have := hent 0 (by simp)
      rw [Nat.add_zero] at this
      exact Option.isNone_iff_eq_none.mp this
    have hrest : ∀ i (hi : i < rest.length),
        (typeBoundMap.find (callee, start + 1 + i)).isNone = true := by
      intro i hi
      have hstep := hent (i + 1) (by simpa using Nat.succ_lt_succ hi)
      rw [show start + (i + 1) = start + 1 + i by omega] at hstep
      exact hstep
    simp only [newCallOperands, hw, Bool.false_eq_true, if_false, hfw]
    rw [ih (start + 1) (fun v hv => hops v (List.mem_cons_of_mem _ hv)) hrest]
    rfl

theorem reconstructResults_spec (rs : List Value) (ts : List TorchType)
    (idx : Nat) (l : List Value)
    (h : reconstructResults rs idx ts = some l) :
    l.length = ts.length ∧
      ∀ i (hi : i < ts.length) (hl : i < l.length),
        (ts[i]).isNone = true → l[i] = Value.constantNone := by
  induction ts generalizing idx l with
  | nil =>
    simp only [reconstructResults, Option.some.injEq] at h
    subst h
    simp
  | cons t rest ih =>
    cases t with
    | noneType =>
      simp only [reconstructResults, Option.map_eq_some'] at h
      obtain ⟨tail, htail, hl⟩ := h
      subst hl
      obtain ⟨hlen, hidx⟩ := ih idx tail htail
      refine ⟨by simp [hlen], ?_⟩
      intro i hi hl hnone
      cases i with
      | zero => rfl
      | succ i' =>
        have hi' : i' < rest.length := by simpa using hi
        have hl' : i' < tail.length := by simpa using hl
        have hnone' : (rest[i']).isNone = true := by simpa using hnone
        simpa using hidx i' hi' hl' hnone'
    | tuple ts' =>
      simp only [reconstructResults, Option.map_eq_some'] at h
      obtain ⟨tail, htail, hl⟩ := h
      subst hl
      obtain ⟨hlen, hidx⟩ := ih idx tail htail
      refine ⟨by simp [hlen], ?_⟩
      intro i hi hl hnone
      cases i with
      | zero => simp [TorchType.isNone] at hnone
      | succ i' =>
        have hi' : i' < rest.length := by simpa using hi
        have hl' : i' < tail.length := by simpa using hl
        have hnone' : (rest[i']).isNone = true := by simpa using hnone
        simpa using hidx i' hi' hl' hnone'
    | valueTensor k =>
      simp only [reconstructResults, Option.bind_eq_bind, Option.bind_eq_some,
        Option.some.injEq] at h
      obtain ⟨r, hr, tail, htail, hl⟩ := h
      subst hl
      obtain ⟨hlen, hidx⟩ := ih (idx + 1) tail htail
      refine ⟨by simp [hlen], ?_⟩
      intro i hi hl hnone
      cases i with
      | zero => simp [TorchType.isNone] at hnone
      | succ i' =>
        have hi' : i' < rest.length := by simpa using hi
        have hl' : i' < tail.length := by simpa using hl
        have hnone' : (rest[i']).isNone = true := by simpa using hnone
        simpa using hidx i' hi' hl' hnone'
    | nonValueTensor k =>
      simp only [reconstructResults, Option.bind_eq_bind, Option.bind_eq_some,
        Option.some.injEq] at h
      obtain ⟨r, hr, tail, htail, hl⟩ := h
      subst hl
      obtain ⟨hlen, hidx⟩ := ih (idx + 1) tail htail
      refine ⟨by simp [hlen], ?_⟩
      intro i hi hl hnone
      cases i with
      | zero => simp [TorchType.isNone] at hnone
      | succ i' =>
        have hi' : i' < rest.length := by simpa using hi
        have hl' : i' < tail.length := by simpa using hl
        have hnone' : (rest[i']).isNone = true := by simpa using hnone
        simpa using hidx i' hi' hl' hnone'
    | int =>
      simp only [reconstructResults, Option.bind_eq_bind, Option.bind_eq_some,
        Option.some.injEq] at h
      obtain ⟨r, hr, tail, htail, hl⟩ := h
      subst hl
      obtain ⟨hlen, hidx⟩ := ih (idx + 1) tail htail
      refine ⟨by simp [hlen], ?_⟩
      intro i hi hl hnone
      cases i with
      | zero => simp [TorchType.isNone] at hnone
      | succ i' =>
        have hi' : i' < rest.length := by simpa using hi
        have hl' : i' < tail.length := by simpa using hl
        have hnone' : (rest[i']).isNone = true := by simpa using hnone
        simpa using hidx i' hi' hl' hnone'
    | prim k =>
      simp only [reconstructResults, Option.bind_eq_bind, Option.bind_eq_some,
        Option.some.injEq] at h
      obtain ⟨r, hr, tail, htail, hl⟩ := h
      subst hl
      obtain ⟨hlen, hidx⟩ := ih (idx + 1) tail htail
      refine ⟨by simp [hlen], ?_⟩
      intro i hi hl hnone
      cases i with
      | zero => simp [TorchType.isNone] at hnone
      | succ i' =>
        have hi' : i' < rest.length := by simpa using hi
        have hl' : i' < tail.length := by simpa using hl
        have hnone' : (rest[i']).isNone = true := by simpa using hnone
        simpa using hidx i' hi' hl' hnone'

theorem reconstructResults_cons_plain (rs : List Value) (start : Nat)
    (t : TorchType) (rest : List TorchType)
    (h1 : t.isNone = false) (h2 : t.isTuple = false) :
    reconstructResults rs start (t :: rest) =
      (do
        let r ← rs[start]?
        let tail ← reconstructResults rs (start + 1) rest
        some (r :: tail)) := by
  cases t with
  | noneType => simp [TorchType.isNone] at h1
  | tuple ts => simp [TorchType.isTuple] at h2
  | valueTensor k => rfl
  | nonValueTensor k => rfl
  | int => rfl
  | prim k => rfl

theorem convertTypes_plain (ts : List TorchType)
    (h : ∀ t ∈ ts, t.isNone = false ∧ t.isTuple = false) :
    convertTypes ts = ts := by
  induction ts with
  | nil => rfl
  | cons t rest ih =>
    have hhd := h t (List.mem_cons_self _ _)
    have htl := ih (fun u hu => h u (List.mem_cons_of_mem _ hu))
    cases t with
    | noneType => simp [TorchType.isNone] at hhd
    | tuple ts' => simp [TorchType.isTuple] at hhd
    | valueTensor k => simp [convertTypes, convertType] at htl ⊢; exact htl
    | nonValueTensor k => simp [convertTypes, convertType] at htl ⊢; exact htl
    | int => simp [convertTypes, convertType] at htl ⊢; exact htl
    | prim k => simp [convertTypes, convertType] at htl ⊢; exact htl

theorem callResults_length (callId : Nat) (ts : List TorchType) :
    (callResults callId ts).length = ts.length := by
  simp [callResults]

theorem reconstructResults_callResults (callId : Nat)
    (full ts : List TorchType) (start : Nat)
    (hsuffix : ts = full.drop start)
    (hplain : ∀ t ∈ ts, t.isNone = false ∧ t.isTuple = false) :
    reconstructResults (callResults callId full) start ts =
      some ((callResults callId full).drop start) := by
  induction ts generalizing start with
  | nil =>
    have hlen : full.length ≤ start := by
      have := congrArg List.length hsuffix
      simp only [List.length_nil, List.length_drop] at this
      omega
    rw [reconstructResults, List.drop_eq_nil_of_le]
    rw [callResults_length]
    exact hlen
  | cons t rest ih =>
    have hlt : start < full.length := by
      by_contra hge
      rw [List.drop_eq_nil_of_le (by omega)] at hsuffix
      cases hsuffix
    have hhd := hplain t (List.mem_cons_self _ _)
    rw [reconstructResults_cons_plain _ _ _ _ hhd.1 hhd.2]
    have hrest : rest = full.drop (start + 1) := by
      have := congrArg List.tail hsuffix
      simpa [List.tail_drop] using this
    rw [ih (start + 1) hrest
      (fun u hu => hplain u (List.mem_cons_of_mem _ hu))]
    have hget : (callResults callId full)[start]? =
        some (Value.callResult full[start] callId start) := by
      simp [callResults, List.getElem?_map, List.getElem?_enum,
        List.getElem?_eq_getElem hlt]
    rw [hget]
    have hdrop : (callResults callId full).drop start =
        Value.callResult full[start] callId start ::
          (callResults callId full).drop (start + 1) := by
      have hlt' : start < (callResults callId full).length := by
        rw [callResults_length]; exact hlt
      rw [List.drop_eq_getElem_cons hlt']
      congr 1
      simp [callResults, List.getElem_enum]
    rw [hdrop]
    rfl

theorem matchAndRewriteCall_plain (typeBoundMap : TypeBoundMap)
    (call : CallOp) (newCallId : Nat)
    (hops : ∀ v ∈ call.operands, (v.type).isNone = false)
    (hent : ∀ i (hi : i < call.operands.length),
        (typeBoundMap.find (call.callee, i)).isNone = true)
    (hres : ∀ t ∈ call.resultTypes, t.isNone = false ∧ t.isTuple = false) :
    matchAndRewriteCall typeBoundMap call newCallId =
      .ok ({ callee := call.callee, operands := call.operands,
             resultTypes := call.resultTypes },
           callResults newCallId call.resultTypes) := by
  have hid : newCallOperands typeBoundMap call.callee 0 call.operands =
      .ok call.operands :=
    newCallOperands_id typeBoundMap call.callee call.operands 0 hops
      (by intro i hi; simpa using hent i hi)
  have hct : convertTypes call.resultTypes = call.resultTypes :=
    convertTypes_plain call.resultTypes hres
  have hrec : reconstructResults (callResults newCallId call.resultTypes) 0
      call.resultTypes = some (callResults newCallId call.resultTypes) := by
    have := reconstructResults_callResults newCallId call.resultTypes
      call.resultTypes 0 (by simp) hres
    simpa using this
  unfold matchAndRewriteCall
  rw [hct, hid]
  simp only [ok_bind]
  rw [hrec]

theorem matchAndRewriteCall_ok_inv (typeBoundMap : TypeBoundMap)
    (call : CallOp) (newCallId : Nat) (newCall : CallOp) (vals : List Value)
    (h : matchAndRewriteCall typeBoundMap call newCallId =
      .ok (newCall, vals)) :
    reconstructResults (callResults newCallId (convertTypes call.resultTypes))
      0 call.resultTypes = some vals := by
  unfold matchAndRewriteCall at h
  rcases hop : newCallOperands typeBoundMap call.callee 0 call.operands
    with e | newOps
  · rw [hop] at h
    simp [error_bind] at h
  · rw [hop] at h
    simp only [ok_bind] at h
    rcases hrec : reconstructResults
        (callResults newCallId (convertTypes call.resultTypes)) 0
        call.resultTypes with _ | newRes
    · rw [hrec] at h
      simp at h
    · rw [hrec] at h
      simp only [Except.ok.injEq, Prod.mk.injEq] at h
      rw [h.2]

theorem matchAndRewriteCall_error_of_bad_operand (typeBoundMap : TypeBoundMap)
    (call : CallOp) (newCallId : Nat) (i : Nat) (v : Value) (b : TorchType)
    (hv : call.operands[i]? = some v) (hnone : (v.type).isNone = false)
    (hfind : typeBoundMap.find (call.callee, i) = some b)
    (hb : b.isValueTensor = false) :
    matchAndRewriteCall typeBoundMap call newCallId =
      .error unsupportedBoundMsg := by
  have herr : newCallOperands typeBoundMap call.callee 0 call.operands =
      .error unsupportedBoundMsg :=
    newCallOperands_error_of_bad typeBoundMap call.callee call.operands v b
      hnone hb 0 i hv (by simpa using hfind)
  unfold matchAndRewriteCall
  rw [herr]
  rfl

/-- C7: the return-statement rewriter maps each original operand's value
group independently and concatenates the contributions in original operand
order: an empty group contributes nothing; a singleton group contributes
nothing if its value is none-typed and the value itself otherwise; a
multi-value group whose first value is an opaque placeholder cast over a
tuple-typed value contributes one indexed extraction per contained type at
indices 0..N-1; any other multi-value group passes through unchanged. -/
theorem return_groups_mapped_independently_and_concatenated
    (groups : List (List Value)) :
    rewriteReturnOperands groups = groups.flatMap returnGroupClaimed := by
  induction groups with
  | nil => rfl
  | cons g rest ih =>
    rcases g with _ | ⟨v0, _ | ⟨v1, vs⟩⟩
    · simp [rewriteReturnOperands, returnGroupClaimed, ih]
    · cases hv : (v0.type).isNone with
      | true => simp [rewriteReturnOperands, returnGroupClaimed, hv, ih]
      | false => simp [rewriteReturnOperands, returnGroupClaimed, hv, ih]
    · cases v0 with
      | unrealizedCast t src =>
        cases hsrc : src.type with
        | tuple ts =>
          simp [rewriteReturnOperands, returnGroupClaimed, hsrc, ih,
            tupleIndexOps_eq_claimed]
        | noneType => simp [rewriteReturnOperands, returnGroupClaimed, hsrc, ih]
        | nonValueTensor k =>
          simp [rewriteReturnOperands, returnGroupClaimed, hsrc, ih]
        | valueTensor k =>
          simp [rewriteReturnOperands, returnGroupClaimed, hsrc, ih]
        | int => simp [rewriteReturnOperands, returnGroupClaimed, hsrc, ih]
        | prim k => simp [rewriteReturnOperands, returnGroupClaimed, hsrc, ih]
      | arg t id => simp [rewriteReturnOperands, returnGroupClaimed, ih]
      | constantNone => simp [rewriteReturnOperands, returnGroupClaimed, ih]
      | constantInt n => simp [rewriteReturnOperands, returnGroupClaimed, ih]
      | primTupleConstruct t args =>
        simp [rewriteReturnOperands, returnGroupClaimed, ih]
      | primTupleIndex t tup idx =>
        simp [rewriteReturnOperands, returnGroupClaimed, ih]
      | copy t src => simp [rewriteReturnOperands, returnGroupClaimed, ih]
      | callResult t cid idx =>
        simp [rewriteReturnOperands, returnGroupClaimed, ih]

theorem convertBody_no_ok_of_callIndirect (typeBoundMap : TypeBoundMap)
    (body : List Op) (hmem : Op.callIndirect ∈ body) (fresh : Nat) :
    ∀ out, convertBody typeBoundMap fresh body ≠ .ok out := by
  induction body generalizing fresh with
  | nil => cases hmem
  | cons op rest ih =>
    intro out
    cases op with
    | callIndirect => simp [convertBody]
    | call c =>
      have hmem' : Op.callIndirect ∈ rest := by
        rcases List.mem_cons.mp hmem with heq | h'
        · cases heq
        · exact h'
      rcases hr : matchAndRewriteCall typeBoundMap c fresh with e | pr
      · simp [convertBody, hr, error_bind]
      · rcases ht : convertBody typeBoundMap (fresh + 1) rest with e | tl
        · simp [convertBody, hr, ht, error_bind, ok_bind]
        · exact absurd ht (ih hmem' (fresh + 1) tl)
    | ret groups =>
      have hmem' : Op.callIndirect ∈ rest := by
        rcases List.mem_cons.mp hmem with heq | h'
        · cases heq
        · exact h'
      rcases ht : convertBody typeBoundMap fresh rest with e | tl
      · simp [convertBody, ht, error_bind]
      · exact absurd ht (ih hmem' fresh tl)
    | other k =>
      have hmem' : Op.callIndirect ∈ rest := by
        rcases List.mem_cons.mp hmem with heq | h'
        · cases heq
        · exact h'
      rcases ht : convertBody typeBoundMap fresh rest with e | tl
      · simp [convertBody, ht, error_bind]
      · exact absurd ht (ih hmem' fresh tl)

theorem adjustFunc_no_ok_of_func_error (typeBoundMap : TypeBoundMap)
    (fd : FuncDef) (e : String)
    (hil : funcOpDynamicallyLegal fd.func = false)
    (herr : matchAndRewriteFunc fd.func = .error e) :
    ∀ out, adjustCallingConventionsFunc typeBoundMap fd ≠ .ok out := by
  intro out
  simp [adjustCallingConventionsFunc, hil, herr, error_bind]

theorem adjustFunc_no_ok_of_func_fail (typeBoundMap : TypeBoundMap)
    (fd : FuncDef) (hil : funcOpDynamicallyLegal fd.func = false)
    (hfail : ∀ out, matchAndRewriteFunc fd.func ≠ .ok out) :
    ∀ out, adjustCallingConventionsFunc typeBoundMap fd ≠ .ok out := by
  intro out
  unfold adjustCallingConventionsFunc
  rcases hf : matchAndRewriteFunc fd.func with e | nf
  · simp [hil, hf, error_bind]
  · exact absurd hf (hfail nf)

theorem adjustFunc_no_ok_of_body (typeBoundMap : TypeBoundMap) (fd : FuncDef)
    (hbody : ∀ out, convertBody typeBoundMap 0 fd.body ≠ .ok out) :
    ∀ out, adjustCallingConventionsFunc typeBoundMap fd ≠ .ok out := by
  intro out
  unfold adjustCallingConventionsFunc
  rcases hb : convertBody typeBoundMap 0 fd.body with e | nb
  · cases hleg : funcOpDynamicallyLegal fd.func with
    | true => simp [hleg, hb, error_bind, ok_bind]
    | false =>
      rcases hf : matchAndRewriteFunc fd.func with e2 | nf
      · simp [hleg, hf, error_bind]
      · simp [hleg, hf, hb, error_bind, ok_bind]
  · exact absurd hb (hbody nb)

theorem processFuncs_no_ok_of_mem_fail (typeBoundMap : TypeBoundMap)
    (funcs : List FuncDef) (fd : FuncDef) (hmem : fd ∈ funcs)
    (hfail : ∀ out, adjustCallingConventionsFunc typeBoundMap fd ≠ .ok out) :
    ∀ out, processFuncs typeBoundMap funcs ≠ .ok out := by
  induction funcs with
  | nil => cases hmem
  | cons g rest ih =>
    intro out
    rcases List.mem_cons.mp hmem with heq | hmem'
    · subst heq
      rcases hg : adjustCallingConventionsFunc typeBoundMap fd with e | v
      · simp [processFuncs, hg, error_bind]
      · exact absurd hg (hfail v)
    · rcases hg : adjustCallingConventionsFunc typeBoundMap g with e | v
      · simp [processFuncs, hg, error_bind]
      · rcases hr : processFuncs typeBoundMap rest with e | l
        · simp [processFuncs, hg, hr, error_bind, ok_bind]
        · exact absurd hr (ih hmem' l)

/-! ## The claims -/

/-- C1: evaluation of the call-site result reconstruction at a call whose
original result list is a tuple of two tensors followed by a third tensor.
The code hands the tuple construction all three new-call results and leaves
the cursor at 0, so the following tensor result reuses new-call result 0;
the specification's walk (`reconstructResultsClaimed`) instead gives the
tuple exactly the next two results and the tensor result the third.  On a
call whose only result is the tuple, the two walks agree, confirming the
claim's particular case. -/
theorem tuple_reconstruction_consumes_all_new_results :
    matchAndRewriteCall [] mixedResultsCall 0 =
      .ok ({ callee := "f", operands := [],
             resultTypes := [.valueTensor 0, .valueTensor 1, .valueTensor 2] },
           [Value.primTupleConstruct (.tuple [.valueTensor 0, .valueTensor 1])
              [Value.callResult (.valueTensor 0) 0 0,
               Value.callResult (.valueTensor 1) 0 1,
               Value.callResult (.valueTensor 2) 0 2],
            Value.callResult (.valueTensor 0) 0 0]) ∧
    reconstructResultsClaimed
        (callResults 0 (convertTypes mixedResultsCall.resultTypes)) 0
        mixedResultsCall.resultTypes =
      some [Value.primTupleConstruct (.tuple [.valueTensor 0, .valueTensor 1])
              [Value.callResult (.valueTensor 0) 0 0,
               Value.callResult (.valueTensor 1) 0 1],
            Value.callResult (.valueTensor 2) 0 2] ∧
    matchAndRewriteCall [] singleTupleCall 1 =
      .ok ({ callee := "g", operands := [],
             resultTypes := [.valueTensor 0, .valueTensor 1] },
           [Value.primTupleConstruct (.tuple [.valueTensor 0, .valueTensor 1])
              [Value.callResult (.valueTensor 0) 1 0,
               Value.callResult (.valueTensor 1) 1 1]]) ∧
    reconstructResultsClaimed
        (callResults 1 (convertTypes singleTupleCall.resultTypes)) 0
        singleTupleCall.resultTypes =
      some [Value.primTupleConstruct (.tuple [.valueTensor 0, .valueTensor 1])
              [Value.callResult (.valueTensor 0) 1 0,
               Value.callResult (.valueTensor 1) 1 1]] :=
  ⟨rfl, rfl, rfl, rfl⟩

/-- C2 (as stated) fails: a function whose argument is of a plain
non-tensor type carrying a present, non-value-semantic `torch.type_bound`
annotation sails through the signature rewrite (the bound is only checked
for non-value-semantic tensor arguments) and the whole pass succeeds on a
module containing it. -/
theorem plain_arg_bad_bound_accepted :
    plainArgBadBoundFunc.args = [(.prim 7, some (.nonValueTensor 3))] ∧
    (TorchType.nonValueTensor 3).isValueTensor = false ∧
    matchAndRewriteFunc plainArgBadBoundFunc =
      .ok { name := "g", args := [(.prim 7, Option.none)],
            resultTypes := [] } ∧
    runOnOperation [{ func := plainArgBadBoundFunc, body := [] }] =
      .ok [{ func := { name := "g", args := [(.prim 7, Option.none)],
                       resultTypes := [] },
             body := [] }] :=
  ⟨rfl, rfl, rfl, rfl⟩

/-- C2 (amended): for every function with a non-value-semantic tensor
argument whose `torch.type_bound` annotation is present but not a
value-semantic tensor type: the signature rewrite fails with the
unsupported-refinement diagnostic whenever every non-value-semantic tensor
argument of the function carries an annotation (an unannotated one hits
the null-`isa` crash first, see C9, and in every case the rewrite never
succeeds); the call-site rewrite fails with the same diagnostic on any
call passing a non-none operand at a position whose table entry is that
bound; and the pass fails overall on any module containing the
function. -/
theorem nonvalue_tensor_bad_bound_rejected (fd : FuncDef) (k : Nat)
    (b : TorchType)
    (hmem : (TorchType.nonValueTensor k, some b) ∈ fd.func.args)
    (hb : b.isValueTensor = false)
    (funcs : List FuncDef) (hf : fd ∈ funcs) :
    ((∀ p ∈ fd.func.args,
        (p.fst).isNonValueTensor = true → (p.snd).isSome = true) →
      matchAndRewriteFunc fd.func = .error unsupportedBoundMsg) ∧
    (∀ out, matchAndRewriteFunc fd.func ≠ .ok out) ∧
    (∀ (typeBoundMap : TypeBoundMap) (call : CallOp) (i newCallId : Nat)
        (v : Value),
        call.operands[i]? = some v → (v.type).isNone = false →
        typeBoundMap.find (call.callee, i) = some b →
        matchAndRewriteCall typeBoundMap call newCallId =
          .error unsupportedBoundMsg) ∧
    ∀ out, runOnOperation funcs ≠ .ok out := by
  have hnotok : ∀ out, matchAndRewriteFunc fd.func ≠ .ok out :=
    matchAndRewriteFunc_not_ok fd.func
      (convertFuncArgs_not_ok_of_bad fd.func.args _ _ hmem rfl
        (by simpa using hb))
  refine ⟨?_, hnotok, ?_, ?_⟩
  · intro hpresent
    exact matchAndRewriteFunc_error fd.func unsupportedBoundMsg
      (convertFuncArgs_error_of_present_bad fd.func.args _ _ hmem rfl hb
        hpresent)
  · intro typeBoundMap call i newCallId v hv hnone hfind
    exact matchAndRewriteCall_error_of_bad_operand typeBoundMap call newCallId
      i v b hv hnone hfind hb
  · intro out
    have hil := funcOp_illegal_of_attr fd.func _ _ hmem
    have hfail := adjustFunc_no_ok_of_func_fail
      (buildTypeBoundMap (funcs.map FuncDef.func)) fd hil hnotok
    have := processFuncs_no_ok_of_mem_fail _ funcs fd hf hfail
    simpa [runOnOperation] using this out

/-- Witness for C2 (amended) at a one-argument function with a
non-value-semantic bound on a non-value-semantic tensor argument. -/
theorem nonvalue_tensor_bad_bound_rejected_witness :
    matchAndRewriteFunc badBoundFunc = .error unsupportedBoundMsg ∧
    matchAndRewriteCall [(("b", 0), TorchType.nonValueTensor 1)]
        { callee := "b", operands := [Value.arg (.nonValueTensor 0) 0],
          resultTypes := [] } 0 = .error unsupportedBoundMsg ∧
    runOnOperation [{ func := badBoundFunc, body := [] }] ≠
      .ok [{ func := badBoundFunc, body := [] }] := by
  have h := nonvalue_tensor_bad_bound_rejected
    { func := badBoundFunc, body := [] } 0 (.nonValueTensor 1)
    (List.Mem.head _) rfl
    [{ func := badBoundFunc, body := [] }] (List.Mem.head _)
  exact ⟨h.1 (by decide), h.2.2.1 _ _ 0 0 _ rfl rfl rfl, h.2.2.2 _⟩

/-- C3 (as stated) fails: the function legality predicate does not examine
tuple-typed signature elements, so an annotation-free, none-free function
returning a tuple is considered legal — and skipped unchanged by the
conversion — although the claim requires it to be illegal. -/
theorem tuple_result_func_considered_legal :
    funcOpDynamicallyLegal tupleResultFunc = true ∧
    tupleResultFunc.resultTypes.any TorchType.isTuple = true ∧
    funcOpLegalClaimed tupleResultFunc = false ∧
    adjustCallingConventionsFunc [] { func := tupleResultFunc, body := [] } =
      .ok { func := tupleResultFunc, body := [] } :=
  ⟨rfl, rfl, rfl, rfl⟩

/-- C3 (amended): a function is considered already legal — and its
signature rewrite is skipped on any re-run — exactly when it has no
remaining `torch.type_bound` annotations, no none-typed arguments, and no
none-typed results; tuple-typed signature elements are not examined. -/
theorem func_legality_characterization_and_skip (f : FuncOp) :
    (funcOpDynamicallyLegal f = true ↔
      ((∀ p ∈ f.args,
          p.snd = (Option.none : Option TorchType) ∧ (p.fst).isNone = false) ∧
        ∀ t ∈ f.resultTypes, t.isNone = false)) ∧
    (funcOpDynamicallyLegal f = true →
      ∀ (typeBoundMap : TypeBoundMap) (body : List Op),
        adjustCallingConventionsFunc typeBoundMap { func := f, body := body } =
          (convertBody typeBoundMap 0 body).map
            (fun b => { func := f, body := b })) := by
  constructor
  · simp [funcOpDynamicallyLegal, List.all_eq_true, Bool.and_eq_true,
      Bool.not_eq_true', Option.isNone_iff_eq_none]
  · intro hleg typeBoundMap body
    unfold adjustCallingConventionsFunc
    rcases hb : convertBody typeBoundMap 0 body with e | nb <;>
      simp [hleg, hb, error_bind, ok_bind, Except.map]

/-- Witness for C3 (amended) at an already-converted function. -/
theorem func_legality_characterization_and_skip_witness :
    funcOpDynamicallyLegal legalPlainFunc = true ∧
    adjustCallingConventionsFunc [] { func := legalPlainFunc, body := [] } =
      (convertBody [] 0 []).map
        (fun b => { func := legalPlainFunc, body := b }) :=
  ⟨rfl,
   (func_legality_characterization_and_skip legalPlainFunc).2 rfl [] []⟩

/-- C4: every successful call rewrite hands downstream uses exactly one
replacement value per original declared result, whatever the new call's own
result count; a none-typed original result position receives a freshly
synthesized constant-none value. -/
theorem call_replacement_arity_preserved (typeBoundMap : TypeBoundMap)
    (call : CallOp) (newCallId : Nat) (newCall : CallOp) (vals : List Value)
    (h : matchAndRewriteCall typeBoundMap call newCallId =
      .ok (newCall, vals)) :
    vals.length = call.resultTypes.length ∧
      ∀ i (hi : i < call.resultTypes.length) (hl : i < vals.length),
        ((call.resultTypes)[i]).isNone = true → vals[i] = Value.constantNone := by
  have hrec := matchAndRewriteCall_ok_inv typeBoundMap call newCallId newCall
    vals h
  exact reconstructResults_spec _ _ _ _ hrec

/-- Witness for C4 at a call with a none-typed and a tensor result. -/
theorem call_replacement_arity_preserved_witness :
    matchAndRewriteCall [] noneResultCall 0 =
      .ok ({ callee := "f", operands := [], resultTypes := [.valueTensor 0] },
           [Value.constantNone, Value.callResult (.valueTensor 0) 0 0]) ∧
    ([Value.constantNone, Value.callResult (.valueTensor 0) 0 0]).length =
      noneResultCall.resultTypes.length ∧
    ([Value.constantNone,
      Value.callResult (.valueTensor 0) 0 0])[0] = Value.constantNone := by
  refine ⟨rfl, ?_, ?_⟩
  · exact (call_replacement_arity_preserved [] noneResultCall 0 _ _ rfl).1
  · exact (call_replacement_arity_preserved [] noneResultCall 0 _ _ rfl).2 0
      (by decide) (by decide) rfl

/-- C5: the call-site rewriter processes operands in order, dropping every
none-typed operand, wrapping every operand whose (callee, index) table
entry is a value-semantic tensor bound in a copy/cast to the bound type,
and passing operands without a table entry through unchanged. -/
theorem call_operands_processed_per_spec (typeBoundMap : TypeBoundMap)
    (call : CallOp)
    (h : ∀ i (hi : i < call.operands.length),
        operandEntryOk typeBoundMap call.callee i (call.operands[i]) = true) :
    newCallOperands typeBoundMap call.callee 0 call.operands =
      .ok ((call.operands.enum).filterMap
        (processOperandClaimed typeBoundMap call.callee)) := by
  have := newCallOperands_ok typeBoundMap call.callee call.operands 0
    (by intro i hi; simpa using h i hi)
  simpa [List.enum] using this

/-- Witness for C5 at operands exercising all three cases. -/
theorem call_operands_processed_per_spec_witness :
    newCallOperands sampleTypeBoundMap "f" 0 sampleOperands =
      .ok ((sampleOperands.enum).filterMap
        (processOperandClaimed sampleTypeBoundMap "f")) :=
  call_operands_processed_per_spec sampleTypeBoundMap
    { callee := "f", operands := sampleOperands, resultTypes := [] }
    (by decide)

/-- C6: the signature rewriter drops none-typed arguments, retypes
non-value-semantic tensor arguments with a valid value-semantic bound to
the bound, passes other argument types through, drops none-typed results,
flattens tuple-typed results into their contained types in order, and
passes other result types through. -/
theorem signature_rewrite_maps_args_and_results (f : FuncOp)
    (h : ∀ p ∈ f.args, argSlotOk p = true) :
    matchAndRewriteFunc f =
      .ok { name := f.name
            args := (f.args.flatMap argSlotClaimed).map
              (fun t => (t, (Option.none : Option TorchType)))
            resultTypes := f.resultTypes.flatMap resultSlotClaimed } := by
  unfold matchAndRewriteFunc
  rw [convertFuncArgs_ok_of_ok f.args h]
  simp only [ok_bind]
  rw [convertFuncResultTypes_eq_flatMap]

/-- Witness for C6 at a function exercising every argument and result
case. -/
theorem signature_rewrite_maps_args_and_results_witness :
    matchAndRewriteFunc annotatedFunc =
      .ok { name := annotatedFunc.name
            args := (annotatedFunc.args.flatMap argSlotClaimed).map
              (fun t => (t, (Option.none : Option TorchType)))
            resultTypes := annotatedFunc.resultTypes.flatMap
              resultSlotClaimed } :=
  signature_rewrite_maps_args_and_results annotatedFunc (by decide)

/-- C8: a program containing an indirect call fails the pass: the
operation is illegal under the conversion target, no pattern rewrites it,
so the body conversion of its function — and the whole pass on any module
containing that function — cannot succeed. -/
theorem indirect_call_causes_pass_failure (fd : FuncDef)
    (funcs : List FuncDef) (hbody : Op.callIndirect ∈ fd.body)
    (hmod : fd ∈ funcs) :
    (∀ (typeBoundMap : TypeBoundMap) (fresh : Nat) (out : List Op),
        convertBody typeBoundMap fresh fd.body ≠ .ok out) ∧
    ∀ out, runOnOperation funcs ≠ .ok out := by
  constructor
  · intro typeBoundMap fresh out
    exact convertBody_no_ok_of_callIndirect typeBoundMap fd.body hbody fresh
      out
  · intro out
    have hfail := adjustFunc_no_ok_of_body
      (buildTypeBoundMap (funcs.map FuncDef.func)) fd
      (fun o => convertBody_no_ok_of_callIndirect _ fd.body hbody 0 o)
    have := processFuncs_no_ok_of_mem_fail _ funcs fd hmod hfail
    simpa [runOnOperation] using this out

/-- Witness for C8 at a one-function module whose body is a single
indirect call. -/
theorem indirect_call_causes_pass_failure_witness :
    convertBody [] 0 indirectBodyDef.body ≠ .ok [] ∧
    runOnOperation [indirectBodyDef] ≠ .ok [indirectBodyDef] :=
  ⟨(indirect_call_causes_pass_failure indirectBodyDef [indirectBodyDef]
      (List.Mem.head _) (List.Mem.head _)).1 [] 0 [],
   (indirect_call_causes_pass_failure indirectBodyDef [indirectBodyDef]
      (List.Mem.head _) (List.Mem.head _)).2 [indirectBodyDef]⟩

/-- C9: the claim asserts the clean unsupported-refinement match failure
for a non-value-semantic tensor argument carrying no `torch.type_bound`
annotation, but the code instead crashes: line 59 computes the null
`Type()` for the missing attribute and line 60 applies
`isa<ValueTensorType>` to it, which asserts ("isa<> used on a null type")
in assert-enabled builds and is undefined behavior otherwise.  Evaluating
the signature rewrite at such a function yields the crash outcome, a
different outcome from the unsupported-refinement diagnostic the claim
(and the dead fallback to the declared type) would suggest; the argument
is indeed never silently accepted, but by crashing, not by the
diagnostic. -/
theorem missing_bound_triggers_null_isa_crash :
    matchAndRewriteFunc missingBoundFunc = .error nullIsaMsg ∧
    (nullIsaMsg == unsupportedBoundMsg) = false :=
  ⟨rfl, by decide⟩

/-- C10: calls and returns are legal exactly when outside the
pre-collected set of original operations, so every original call is
rewritten; even a call needing no adjustment is replaced by a freshly
created call with the same callee, operands and result types, whose own
results — one per original result — become the replacement values. -/
theorem original_calls_rewritten_fresh_and_equivalent
    (opsInOriginalProgram : List Nat) (opId : Nat)
    (hmem : opId ∈ opsInOriginalProgram) (typeBoundMap : TypeBoundMap)
    (call : CallOp) (newCallId : Nat)
    (hops : ∀ v ∈ call.operands, (v.type).isNone = false)
    (hent : ∀ i (hi : i < call.operands.length),
        (typeBoundMap.find (call.callee, i)).isNone = true)
    (hres : ∀ t ∈ call.resultTypes, t.isNone = false ∧ t.isTuple = false) :
    callReturnDynamicallyLegal opsInOriginalProgram opId = false ∧
    matchAndRewriteCall typeBoundMap call newCallId =
      .ok ({ callee := call.callee, operands := call.operands,
             resultTypes := call.resultTypes },
           callResults newCallId call.resultTypes) := by
  refine ⟨?_,
    matchAndRewriteCall_plain typeBoundMap call newCallId hops hent hres⟩
  simp [callReturnDynamicallyLegal, hmem]

/-- Witness for C10 at an adjustment-free call collected as original
operation 5 and recreated as call 7. -/
theorem original_calls_rewritten_fresh_and_equivalent_witness :
    callReturnDynamicallyLegal [5] 5 = false ∧
    matchAndRewriteCall [] plainCall 7 =
      .ok ({ callee := plainCall.callee, operands := plainCall.operands,
             resultTypes := plainCall.resultTypes },
           callResults 7 plainCall.resultTypes) :=
  original_calls_rewritten_fresh_and_equivalent [5] 5 (by decide) []
    plainCall 7 (by decide) (by decide) (by decide)

end AdjustCallingConventions
